import Mathlib

/-!
Shallow embedding of the SystemSim renderer logic: SFC run control and
status polling (`src/renderer/src/SFC/page.tsx`), the LTTB chart
downsampler, and the OPC node-table sorting and pagination.  The backend
execution engine (`sfc_manager.py`) is not among the sources; where a
property depends on it, the missing behaviour is modelled from the
specification and the definition says so in its doc comment.
-/

/-- Per-node execution status, from the `nodeStatus` state type in
`SFC/page.tsx` (`'idle' | 'running' | 'finished' | 'error'`). -/
inductive NodeSt
  | idle
  | running
  | finished
  | error
deriving DecidableEq

/-- One node's entry in a polled status snapshot: `status`, optional
`elapsed_time`, optional `error` message (fields read by the polling
callback in `handleStart`). -/
structure NodeEntry where
  status : NodeSt
  elapsedTime : Option ℚ
  errMsg : Option String
deriving DecidableEq

/-- The SFC editor's simulation-control state: `isRunning`, `isPaused`,
whether the 500 ms polling interval is pending (`pollingIntervalRef.id`
non-null), the per-node status map and the execution log messages. -/
structure SimState where
  isRunning : Bool
  isPaused : Bool
  pollingActive : Bool
  nodeStatus : List (String × NodeEntry)
  executionLogs : List String
deriving DecidableEq

/-- The polling cadence of `handleStart`'s `setInterval(..., 500)`. -/
def pollIntervalMs : ℕ := 500

/-- `handleStop` from `SFC/page.tsx`: clears `isRunning` and `isPaused`
and cancels the pending polling interval.  It does not touch
`nodeStatus` (the comment in the source notes stop is not implemented in
the backend). -/
def handleStop (st : SimState) : SimState :=
  { st with isRunning := false, isPaused := false, pollingActive := false }

/-- `handleReset` from `SFC/page.tsx`: clears the run flags, the status
map, the logs and the pending polling interval. -/
def handleReset (st : SimState) : SimState :=
  { st with isRunning := false, isPaused := false, nodeStatus := [],
            executionLogs := [], pollingActive := false }

/-- The state-changing part of `handleStart` on its success path:
auto-reset, the initial log line, `isRunning := true`, and the polling
interval armed. -/
def handleStart (st : SimState) : SimState :=
  { st with isRunning := true, isPaused := false, nodeStatus := [],
            executionLogs := ["Starting SFC execution..."], pollingActive := true }

/-- Insert-or-replace one key of the status map, the effect of
`setNodeStatus((prev) => ({ ...prev, [nodeId]: ... }))` for one node. -/
def upsert (m : List (String × NodeEntry)) (k : String) (v : NodeEntry) :
    List (String × NodeEntry) :=
  if m.any (fun p => decide (p.1 = k)) then
    m.map (fun p => if p.1 = k then (k, v) else p)
  else m ++ [(k, v)]

/-- Status-map lookup (reading one key of the `nodeStatus` object). -/
def lookup (m : List (String × NodeEntry)) (k : String) : Option NodeEntry :=
  (m.find? (fun p => decide (p.1 = k))).map Prod.snd

/-- Merge a polled snapshot into the status map: the
`Object.entries(statusData.status.nodes).forEach` loop of the polling
callback, one `setNodeStatus` upsert per node. -/
def mergeSnapshot (m snap : List (String × NodeEntry)) : List (String × NodeEntry) :=
  snap.foldl (fun acc p => upsert acc p.1 p.2) m

/-- A status counted as terminal by the completion check
(`status.status === 'finished' || status.status === 'error'`). -/
def isTerminal : NodeSt → Bool
  | .finished => true
  | .error => true
  | _ => false

/-- The completion check of the polling callback: every node of the
snapshot is finished or errored, and the snapshot is non-empty
(`allFinished && Object.keys(nodeStatuses).length > 0`). -/
def allFinished (snap : List (String × NodeEntry)) : Bool :=
  snap.all (fun p => isTerminal p.2.status) && !snap.isEmpty

/-- `hasErrors`: some node of the snapshot has status error. -/
def hasErrors (snap : List (String × NodeEntry)) : Bool :=
  snap.any (fun p => decide (p.2.status = NodeSt.error))

/-- The log line added for one node when its status is error and an
error message is present (`addLog('error', Node ...)`). -/
def nodeErrorLog (id : String) (e : NodeEntry) : List String :=
  match e.status, e.errMsg with
  | NodeSt.error, some msg => ["Node " ++ id ++ ": " ++ msg]
  | _, _ => []

/-- All per-node error log lines of one polled snapshot, in snapshot
order. -/
def nodeErrorLogs (snap : List (String × NodeEntry)) : List String :=
  snap.foldr (fun p acc => nodeErrorLog p.1 p.2 ++ acc) []

/-- One firing of the polling callback armed by `handleStart`, applied to
the snapshot fetched from the `/status` endpoint.  A cancelled interval
never fires, so a state with `pollingActive = false` is unchanged.
Otherwise the snapshot is merged into `nodeStatus`, error log lines are
added, and when `allFinished` holds the completion log line is written,
`isRunning` is cleared and the interval is cancelled. -/
def pollStep (st : SimState) (snap : List (String × NodeEntry)) : SimState :=
  if st.pollingActive then
    let merged := mergeSnapshot st.nodeStatus snap
    let logs1 := st.executionLogs ++ nodeErrorLogs snap
    if allFinished snap then
      let msg := if hasErrors snap then "Execution completed with errors"
                 else "Execution completed successfully!"
      { st with nodeStatus := merged, executionLogs := logs1 ++ [msg],
                isRunning := false, pollingActive := false }
    else
      { st with nodeStatus := merged, executionLogs := logs1 }
  else st

/-- The status vocabulary of the specification's StepStatus. -/
def specStepStates : List String := ["idle", "running", "finished", "error", "stopped"]

/-- The wire name of a status value, as the frontend receives and stores
it. -/
def statusName : NodeSt → String
  | .idle => "idle"
  | .running => "running"
  | .finished => "finished"
  | .error => "error"

/-- The operations the SFC editor can perform on its simulation state:
the `handleStart` / `handleStop` / `handleReset` handlers and one firing
of the polling callback. -/
inductive SimOp
  | start
  | stop
  | reset
  | poll (snap : List (String × NodeEntry))

/-- Apply one operation. -/
def applyOp (st : SimState) : SimOp → SimState
  | .start => handleStart st
  | .stop => handleStop st
  | .reset => handleReset st
  | .poll snap => pollStep st snap

/-- Apply a sequence of operations, oldest first. -/
def applyOps (st : SimState) : List SimOp → SimState
  | [] => st
  | op :: ops => applyOps (applyOp st op) ops

/-- The editor's state on mount: nothing running, no statuses, no logs,
no pending interval. -/
def initialSim : SimState :=
  { isRunning := false, isPaused := false, pollingActive := false,
    nodeStatus := [], executionLogs := [] }

/-- Modelled from the spec: the SetValue executor lives in the backend's
`sfc_manager.py`, which is not among the sources.  Per the
specification's SetValue config: `targetAddress` is irrelevant to the
ramp arithmetic; a numeric ramp is `startValue`, `endValue` and
`durationSeconds`. -/
structure RampCfg where
  startValue : ℚ
  endValue : ℚ
  durationSeconds : ℚ
deriving DecidableEq

/-- Modelled from the spec: the numeric interpolation
`value(t) = startValue + (endValue - startValue) * min(1, elapsed / durationSeconds)`. -/
def rampValue (cfg : RampCfg) (elapsed : ℚ) : ℚ :=
  cfg.startValue + (cfg.endValue - cfg.startValue) * min 1 (elapsed / cfg.durationSeconds)

/-- State of one running SetValue step: accumulated elapsed seconds and
whether the step has transitioned to Finished. -/
structure RampState where
  elapsed : ℚ
  finished : Bool
deriving DecidableEq

/-- Modelled from the spec: one sampling tick of the SetValue executor.
A finished step ticks no more.  Otherwise elapsed advances by `dt`;
while `elapsed < durationSeconds` the tick dispatches
`write(addr, value(elapsed), numeric)`, and when
`elapsed >= durationSeconds` it issues one final write of exactly
`endValue` and transitions to Finished.  The emitted pair is
(elapsed at the write, written value). -/
def rampTick (cfg : RampCfg) (st : RampState) (dt : ℚ) :
    RampState × Option (ℚ × ℚ) :=
  if st.finished then (st, none)
  else
    let t := st.elapsed + dt
    if cfg.durationSeconds ≤ t then (⟨t, true⟩, some (t, cfg.endValue))
    else (⟨t, false⟩, some (t, rampValue cfg t))

/-- Run the SetValue executor over a list of tick intervals, collecting
the dispatched writes in order together with the final step state. -/
def runRamp (cfg : RampCfg) : RampState → List ℚ → List (ℚ × ℚ) × RampState
  | st, [] => ([], st)
  | st, dt :: rest =>
    let s1 := rampTick cfg st dt
    let s2 := runRamp cfg s1.1 rest
    (s1.2.toList ++ s2.1, s2.2)

/-- A chart sample, from the LTTB module (`ts`, `value`). -/
structure Point where
  ts : ℚ
  value : ℚ
deriving DecidableEq

/-- One iteration of the bucket loop of `downsampleLTTB`: average the
next bucket, then append the point of the current bucket with the
largest triangle area (ties keep the earlier point, `area > maxArea`).
Index arithmetic follows the source; the candidate index loops guard
`j < data.length` exactly as the source's loop conditions do, and the
floor-based bounds are clamped to ℕ for list indexing (they are
non-negative whenever the loop runs, since then `bucketSize > 1`). -/
def lttbBest (data : List Point) (bucketSize : ℚ) (downsampled : List Point)
    (i : ℕ) : Option ℕ :=
  let p0 : Point := ⟨0, 0⟩
  let n := data.length
  let avgRangeStart := (Int.floor (((i : ℚ) + 1) * bucketSize) + 1).toNat
  let avgRangeEnd := (Int.floor (((i : ℚ) + 2) * bucketSize) + 1).toNat
  let avgRangeLength : ℚ := (avgRangeEnd : ℚ) - (avgRangeStart : ℚ)
  let avgIdx := (List.range' avgRangeStart (avgRangeEnd - avgRangeStart)).filter
    (fun j => decide (j < n))
  let avgX := ((avgIdx.map (fun j => (data.getD j p0).ts)).sum) / avgRangeLength
  let avgY := ((avgIdx.map (fun j => (data.getD j p0).value)).sum) / avgRangeLength
  let rangeStart := (Int.floor ((i : ℚ) * bucketSize) + 1).toNat
  let rangeEnd := (Int.floor (((i : ℚ) + 1) * bucketSize) + 1).toNat
  let prevPoint := downsampled.getLastD p0
  let candIdx := (List.range' rangeStart (rangeEnd - rangeStart)).filter
    (fun j => decide (j < n))
  let best := candIdx.foldl
    (fun acc j =>
      let p := data.getD j p0
      let area := |(prevPoint.ts - p.ts) * (avgY - prevPoint.value) -
          (prevPoint.ts - avgX) * (p.value - prevPoint.value)| * (1 / 2)
      if acc.1 < area then (area, some j) else acc)
    ((-1 : ℚ), (none : Option ℕ))
  best.2

/-- One iteration's effect on the accumulator: append the chosen point,
or nothing when the candidate range is empty. -/
def lttbPick (data : List Point) (bucketSize : ℚ) (downsampled : List Point)
    (i : ℕ) : List Point :=
  match lttbBest data bucketSize downsampled i with
  | some j => downsampled ++ [data.getD j ⟨0, 0⟩]
  | none => downsampled

/-- `downsampleLTTB` from the chart utility module: identity when
`data.length <= threshold`; otherwise keep the first point, run the
bucket loop `threshold - 2` times, and keep the last point. -/
def downsampleLTTB (data : List Point) (threshold : ℕ) : List Point :=
  if data.length ≤ threshold then data
  else
    let p0 : Point := ⟨0, 0⟩
    let bucketSize : ℚ := ((data.length : ℚ) - 2) / ((threshold : ℚ) - 2)
    ((List.range (threshold - 2)).foldl (lttbPick data bucketSize)
      [data.headD p0]) ++ [data.getLastD p0]

/-- `totalPages = Math.max(1, Math.ceil(sortedNodes.length / pageSize))`
from the node-table pages. -/
def totalPages (n pageSize : ℕ) : ℤ :=
  max 1 (Int.ceil ((n : ℚ) / (pageSize : ℚ)))

/-- `currentPage = Math.min(page, totalPages)`. -/
def currentPage (page tp : ℤ) : ℤ := min page tp

/-- `goToPage`: the clamped page stored by
`Math.min(Math.max(newPage, 1), totalPages)`. -/
def goToPage (newPage tp : ℤ) : ℤ := min (max newPage 1) tp

/-- The start index of the displayed slice,
`(currentPage - 1) * pageSize` in `pagedNodes`. -/
def pageSliceStart (cp : ℤ) (pageSize : ℕ) : ℤ := (cp - 1) * (pageSize : ℤ)

/-- Sort direction of the node tables. -/
inductive SortDir
  | asc
  | desc
deriving DecidableEq

/-- `String(a).localeCompare(String(b))` modelled as the code-point
comparison: negative when `a < b`, positive when `b < a`, zero
otherwise.  (The collation details are locale-dependent and do not
matter for the properties proved here, which only use the sign.) -/
def localeCompare (a b : String) : ℚ :=
  if a < b then -1 else if b < a then 1 else 0

/-- The null handling shared by both `sortedNodes` comparators: two
nulls compare equal, a null on the left sorts after (`return 1`), a null
on the right sorts before (`return -1`), and two present values use the
value comparator. -/
def optCompare {V : Type} (cmp : V → V → ℚ) : Option V → Option V → ℚ
  | none, none => 0
  | none, some _ => 1
  | some _, none => -1
  | some a, some b => cmp a b

/-- The string branch of the comparators, honouring the sort
direction. -/
def strCompare (d : SortDir) (a b : String) : ℚ :=
  match d with
  | .asc => localeCompare a b
  | .desc => localeCompare b a

/-- The numeric branch of the `part_005` comparator
(`sortDir === "asc" ? valA - valB : valB - valA`). -/
def numCompare (d : SortDir) (a b : ℚ) : ℚ :=
  match d with
  | .asc => a - b
  | .desc => b - a

/-- An `OPCNode` row of the SFC-config table (`part_003`): `node_id` is
always present, the other sortable columns are nullable. -/
structure ConfigNode where
  node_id : String
  shortnodeid : Option String
  browse_name : Option String
  data_type : Option String
deriving DecidableEq

/-- The sortable columns of the SFC-config table. -/
inductive ConfigSortKey
  | shortnodeid
  | browse_name
  | node_id
  | data_type
deriving DecidableEq

/-- The value `a[sortKey]` of a config row, `none` standing for null. -/
def configKey : ConfigSortKey → ConfigNode → Option String
  | .shortnodeid, a => a.shortnodeid
  | .browse_name, a => a.browse_name
  | .node_id, a => some a.node_id
  | .data_type, a => a.data_type

/-- The `part_003` comparator: null checks first, then a
direction-sensitive `localeCompare` of the string values. -/
def configCompare (k : ConfigSortKey) (d : SortDir) (a b : ConfigNode) : ℚ :=
  optCompare (strCompare d) (configKey k a) (configKey k b)

/-- `sortedNodes` of `part_003`: a stable sort of the matching nodes by
the comparator. -/
def sortedNodes (k : ConfigSortKey) (d : SortDir) (nodes : List ConfigNode) :
    List ConfigNode :=
  nodes.mergeSort (fun a b => decide (configCompare k d a b ≤ 0))

/-- An `OPCNode` row of the discovered-nodes table (`part_005`):
`value_rank` is the one numeric (nullable) column. -/
structure DiscoveredNode where
  node_id : String
  browse_name : String
  parent_id : Option String
  data_type : Option String
  value_rank : Option ℚ
  discovered_at : String
deriving DecidableEq

/-- The sortable columns of the discovered-nodes table (`keyof
OPCNode`). -/
inductive DiscoveredSortKey
  | node_id
  | browse_name
  | parent_id
  | data_type
  | value_rank
  | discovered_at
deriving DecidableEq

/-- The value `a[sortKey]` of a discovered row: a string or a number,
`none` standing for null. -/
def discoveredKey : DiscoveredSortKey → DiscoveredNode → Option (String ⊕ ℚ)
  | .node_id, a => some (Sum.inl a.node_id)
  | .browse_name, a => some (Sum.inl a.browse_name)
  | .parent_id, a => a.parent_id.map Sum.inl
  | .data_type, a => a.data_type.map Sum.inl
  | .value_rank, a => a.value_rank.map Sum.inr
  | .discovered_at, a => some (Sum.inl a.discovered_at)

/-- `String(v)` applied to a table value. -/
def svalStr : String ⊕ ℚ → String
  | Sum.inl s => s
  | Sum.inr q => toString q

/-- The typed branch dispatch of the `part_005` comparator: two numbers
use the numeric difference, anything else is compared as strings. -/
def svalCompare (d : SortDir) : String ⊕ ℚ → String ⊕ ℚ → ℚ
  | Sum.inr a, Sum.inr b => numCompare d a b
  | a, b => strCompare d (svalStr a) (svalStr b)

/-- The `part_005` comparator: null checks first, then the typed
branch. -/
def discoveredCompare (k : DiscoveredSortKey) (d : SortDir)
    (a b : DiscoveredNode) : ℚ :=
  optCompare (svalCompare d) (discoveredKey k a) (discoveredKey k b)

/-- `sortedNodes` of `part_005`. -/
def sortedDiscovered (k : DiscoveredSortKey) (d : SortDir)
    (nodes : List DiscoveredNode) : List DiscoveredNode :=
  nodes.mergeSort (fun a b => decide (discoveredCompare k d a b ≤ 0))

lemma isTerminal_iff (s : NodeSt) :
    isTerminal s = true ↔ (s = NodeSt.finished ∨ s = NodeSt.error) := by
  cases s <;> simp [isTerminal]

lemma allFinished_iff (snap : List (String × NodeEntry)) :
    allFinished snap = true ↔
      (snap ≠ [] ∧ ∀ p ∈ snap, p.2.status = NodeSt.finished ∨ p.2.status = NodeSt.error) := by
  simp only [allFinished, Bool.and_eq_true, List.all_eq_true, isTerminal_iff,
    Bool.not_eq_true', List.isEmpty_eq_false, ne_eq]
  exact and_comm

/-- C4: `handleStop` is idempotent — applying it twice produces exactly
the same simulation state (per-step statuses and run-level flags) as
applying it once. -/
theorem handleStop_idem (st : SimState) :
    handleStop (handleStop st) = handleStop st := rfl

/-- C5: after any sequence of editor operations from any state, every
per-step status value in the snapshot is one of the five specification
states idle, running, finished, error (Errored), stopped — the code's
vocabulary is the four-element subset without stopped. -/
theorem status_in_spec_vocabulary (ops : List SimOp) (st : SimState) :
    ∀ p ∈ (applyOps st ops).nodeStatus, statusName p.2.status ∈ specStepStates := by
  intro p _
  cases h : p.2.status <;> simp [statusName, specStepStates]

theorem status_in_spec_vocabulary_witness :
    statusName NodeSt.running ∈ specStepStates :=
  status_in_spec_vocabulary
    [SimOp.start, SimOp.poll [("a", ⟨NodeSt.running, none, none⟩)]]
    initialSim
    ("a", ⟨NodeSt.running, none, none⟩) (by decide)

/-- C9: `totalPages` is at least 1 for every node count and page size,
`goToPage` clamps the requested page into `[1, totalPages]`, and the
displayed slice's start index `(currentPage - 1) * pageSize` is never
negative. -/
theorem pagination_clamped (n pageSize : ℕ) (page newPage : ℤ)
    (hpg : 1 ≤ page) :
    1 ≤ totalPages n pageSize ∧
    1 ≤ goToPage newPage (totalPages n pageSize) ∧
    goToPage newPage (totalPages n pageSize) ≤ totalPages n pageSize ∧
    0 ≤ pageSliceStart (currentPage page (totalPages n pageSize)) pageSize := by
  have h1 : 1 ≤ totalPages n pageSize := le_max_left _ _
  refine ⟨h1, le_min (le_max_right _ _) h1, min_le_right _ _, ?_⟩
  have hcp : 1 ≤ currentPage page (totalPages n pageSize) := le_min hpg h1
  have : (0 : ℤ) ≤ (pageSize : ℤ) := Int.natCast_nonneg _
  unfold pageSliceStart
  have : (0 : ℤ) ≤ currentPage page (totalPages n pageSize) - 1 := by linarith
  exact mul_nonneg this (Int.natCast_nonneg _)

theorem pagination_clamped_witness :
    1 ≤ totalPages 0 10 ∧
    1 ≤ goToPage (-3) (totalPages 0 10) ∧
    goToPage (-3) (totalPages 0 10) ≤ totalPages 0 10 ∧
    0 ≤ pageSliceStart (currentPage 1 (totalPages 0 10)) 10 :=
  pagination_clamped 0 10 1 (-3) (by norm_num)

/-- A state mid-run: polling pending and one step Running (3 s
elapsed). -/
def midRunSim : SimState :=
  { isRunning := true, isPaused := false, pollingActive := true,
    nodeStatus := [("n2", ⟨NodeSt.running, some 3, none⟩)],
    executionLogs := [] }

/-- C3 counterexample: on a state with a Running step, `handleStop`
leaves the status map unchanged — the step that is not yet terminal
stays `running`, it is not marked with a distinct terminal Stopped
status (no such status exists in the vocabulary). -/
theorem stop_counterexample :
    (handleStop midRunSim).nodeStatus
      = [("n2", ⟨NodeSt.running, some 3, none⟩)] ∧
    lookup (handleStop midRunSim).nodeStatus "n2"
      = some ⟨NodeSt.running, some 3, none⟩ := by
  exact ⟨rfl, by decide⟩

/-- C3 amended: `handleStop` clears the run flags and cancels the
pending polling interval — after it no further poll firing changes the
state — but it leaves every step's status exactly as it was; no step is
marked Stopped. -/
theorem stop_cancels_polling_only (st : SimState)
    (snap : List (String × NodeEntry)) :
    (handleStop st).nodeStatus = st.nodeStatus ∧
    (handleStop st).isRunning = false ∧
    (handleStop st).isPaused = false ∧
    (handleStop st).pollingActive = false ∧
    pollStep (handleStop st) snap = handleStop st := by
  refine ⟨rfl, rfl, rfl, rfl, ?_⟩
  simp [pollStep, handleStop]

/-- Modelled from the spec: a run's status snapshot as `query()` returns
it — `sfc_manager.py` is not among the sources.  Per the specification,
RunState maps every stepId to a StepStatus and a step gated by an
unfired branch remains Idle for the entire run; here step "a" is
reachable and Finished while step "b" is unreachable and permanently
Idle. -/
def snapshotWithUnreachable : List (String × NodeEntry) :=
  [("a", ⟨NodeSt.finished, none, none⟩), ("b", ⟨NodeSt.idle, none, none⟩)]

/-- A state right after `handleStart`: polling pending, run in
progress, no statuses yet. -/
def startedSim : SimState :=
  { isRunning := true, isPaused := false, pollingActive := true,
    nodeStatus := [], executionLogs := [] }

/-- C2 counterexample: with every reachable step terminal and the
unreachable step permanently Idle in the snapshot, the completion check
fails and the run is not reported Completed — the Idle unreachable step
does prevent completion. -/
theorem completion_counterexample :
    allFinished snapshotWithUnreachable = false ∧
    (pollStep startedSim snapshotWithUnreachable).isRunning = true := by
  exact ⟨by decide, by decide⟩

/-- C2 amended: while polling is pending, a poll firing reports the run
completed (clears `isRunning` and cancels the interval) exactly when the
polled snapshot is non-empty and every step in it — reachable or not —
is Finished or Errored; a permanently-Idle step in the snapshot prevents
the completion report. -/
theorem completion_reported_iff (st : SimState)
    (snap : List (String × NodeEntry)) (hp : st.pollingActive = true) :
    ((pollStep st snap).isRunning = false ∧ (pollStep st snap).pollingActive = false)
      ↔ (snap ≠ [] ∧
          ∀ p ∈ snap, p.2.status = NodeSt.finished ∨ p.2.status = NodeSt.error) := by
  rw [← allFinished_iff]
  unfold pollStep
  rw [hp]
  by_cases h : allFinished snap = true
  · simp [h]
  · simp [h, hp]

theorem completion_reported_iff_witness :
    ((pollStep startedSim [("a", ⟨NodeSt.finished, none, none⟩)]).isRunning = false ∧
      (pollStep startedSim [("a", ⟨NodeSt.finished, none, none⟩)]).pollingActive = false)
      ↔ ([("a", (⟨NodeSt.finished, none, none⟩ : NodeEntry))] ≠ [] ∧
          ∀ p ∈ [("a", (⟨NodeSt.finished, none, none⟩ : NodeEntry))],
            p.2.status = NodeSt.finished ∨ p.2.status = NodeSt.error) :=
  completion_reported_iff _ _ rfl

lemma find?_replace_self (k : String) (v : NodeEntry) :
    ∀ m : List (String × NodeEntry), m.any (fun p => decide (p.1 = k)) = true →
      (m.map (fun p => if p.1 = k then (k, v) else p)).find?
        (fun p => decide (p.1 = k)) = some (k, v) := by
  intro m
  induction m with
  | nil => intro h; simp at h
  | cons q rest ih =>
    intro h
    by_cases hq : q.1 = k
    · simp [hq]
    · have hrest : rest.any (fun p => decide (p.1 = k)) = true := by
        simpa [hq] using h
      simp [hq, ih hrest]

lemma find?_replace_other (k k' : String) (v : NodeEntry) (hne : k' ≠ k) :
    ∀ m : List (String × NodeEntry),
      (m.map (fun p => if p.1 = k then (k, v) else p)).find?
          (fun p => decide (p.1 = k'))
        = m.find? (fun p => decide (p.1 = k')) := by
  intro m
  induction m with
  | nil => rfl
  | cons q rest ih =>
    by_cases hq : q.1 = k
    · have h1 : ¬k = k' := fun h => hne h.symm
      simp [hq, h1, ih]
    · by_cases hq' : q.1 = k'
      · simp [hq', hne]
      · simp [hq, hq', ih]

lemma lookup_upsert_self (m : List (String × NodeEntry)) (k : String)
    (v : NodeEntry) : lookup (upsert m k v) k = some v := by
  unfold upsert lookup
  by_cases h : m.any (fun p => decide (p.1 = k)) = true
  · rw [if_pos h, find?_replace_self k v m h]
    rfl
  · rw [if_neg h, List.find?_append]
    have hnone : m.find? (fun p => decide (p.1 = k)) = none := by
      rw [List.find?_eq_none]
      intro x hx hpx
      exact h (List.any_eq_true.mpr ⟨x, hx, hpx⟩)
    simp [hnone]

lemma lookup_upsert_other (m : List (String × NodeEntry)) (k k' : String)
    (v : NodeEntry) (hne : k' ≠ k) :
    lookup (upsert m k v) k' = lookup m k' := by
  unfold upsert lookup
  by_cases h : m.any (fun p => decide (p.1 = k)) = true
  · rw [if_pos h, find?_replace_other k k' v hne m]
  · rw [if_neg h, List.find?_append]
    have hne' : ¬k = k' := fun hh => hne hh.symm
    simp [hne']

lemma lookup_mergeSnapshot_not_mem (kk : String) :
    ∀ snap : List (String × NodeEntry), (∀ q ∈ snap, q.1 ≠ kk) →
      ∀ m, lookup (mergeSnapshot m snap) kk = lookup m kk := by
  intro snap
  induction snap with
  | nil => intro _ m; rfl
  | cons q rest ih =>
    intro h m
    have hstep : mergeSnapshot m (q :: rest)
        = mergeSnapshot (upsert m q.1 q.2) rest := rfl
    rw [hstep, ih (fun r hr => h r (List.mem_cons_of_mem _ hr)) _]
    exact lookup_upsert_other m q.1 kk q.2 (Ne.symm (h q (List.mem_cons_self _ _)))

lemma lookup_mergeSnapshot_mem :
    ∀ snap : List (String × NodeEntry), (snap.map Prod.fst).Nodup →
      ∀ p ∈ snap, ∀ m, lookup (mergeSnapshot m snap) p.1 = some p.2 := by
  intro snap
  induction snap with
  | nil => intro _ p hp; simp at hp
  | cons q rest ih =>
    intro hnd p hp m
    have hnd' : (q.1 :: rest.map Prod.fst).Nodup := by simpa using hnd
    rcases List.mem_cons.mp hp with rfl | hp'
    · have hnot : ∀ r ∈ rest, r.1 ≠ p.1 := by
        intro r hr hcontra
        exact (List.nodup_cons.mp hnd').1 (hcontra ▸ List.mem_map_of_mem Prod.fst hr)
      have hstep : mergeSnapshot m (p :: rest)
          = mergeSnapshot (upsert m p.1 p.2) rest := rfl
      rw [hstep, lookup_mergeSnapshot_not_mem p.1 rest hnot _]
      exact lookup_upsert_self _ _ _
    · exact ih (List.nodup_cons.mp hnd').2 p hp' (upsert m q.1 q.2)

/-- Modelled from the spec: a run's status snapshot as `query()` returns
it — `sfc_manager.py` is not among the sources.  Per the specification,
RunState maps every stepId to a StepStatus and a step gated by an
unfired branch remains Idle for the entire run; here the reachable step
"a" has Errored on a failed write, so every reachable step is terminal,
while step "b" is unreachable and permanently Idle. -/
def snapshotErroredUnreachable : List (String × NodeEntry) :=
  [("a", ⟨NodeSt.error, some 3, some "write failed"⟩),
   ("b", ⟨NodeSt.idle, none, none⟩)]

/-- C6 counterexample: with every reachable step terminal and one of them
Errored, but a permanently-Idle unreachable step still in the snapshot,
the completion check fails and the run never reaches its terminal
aggregate state — `isRunning` stays true and polling keeps going, so
Completed-with-errors is never reported. -/
theorem errored_run_counterexample :
    hasErrors snapshotErroredUnreachable = true ∧
    allFinished snapshotErroredUnreachable = false ∧
    (pollStep startedSim snapshotErroredUnreachable).isRunning = true ∧
    (pollStep startedSim snapshotErroredUnreachable).pollingActive = true := by
  exact ⟨by decide, by decide, by decide, by decide⟩

/-- C6 amended: when polling fires on a snapshot in which every entry —
not merely every reachable step — is terminal and at least one is
Errored, the run reaches its terminal aggregate state — `isRunning`
cleared, polling cancelled, the "Execution completed with errors" log
line written — and every step's snapshot entry (status, elapsed time,
error message) is retained in the final status map, never rolled back;
the Errored steps do not disturb the sibling steps' Finished entries.
A snapshot that retains a permanently-Idle unreachable step never
satisfies the completion check. -/
theorem errored_run_completes (st : SimState) (snap : List (String × NodeEntry))
    (hp : st.pollingActive = true)
    (hnd : (snap.map Prod.fst).Nodup)
    (hne : snap ≠ [])
    (hterm : ∀ p ∈ snap, p.2.status = NodeSt.finished ∨ p.2.status = NodeSt.error)
    (herr : ∃ p ∈ snap, p.2.status = NodeSt.error) :
    (pollStep st snap).isRunning = false ∧
    (pollStep st snap).pollingActive = false ∧
    (pollStep st snap).executionLogs
      = st.executionLogs ++ nodeErrorLogs snap ++ ["Execution completed with errors"] ∧
    ∀ p ∈ snap, lookup (pollStep st snap).nodeStatus p.1 = some p.2 := by
  have hall : allFinished snap = true := (allFinished_iff snap).mpr ⟨hne, hterm⟩
  have herr' : hasErrors snap = true := by
    rcases herr with ⟨p, hpmem, hperr⟩
    exact List.any_eq_true.mpr ⟨p, hpmem, by simp [hperr]⟩
  have hstep : pollStep st snap
      = { st with nodeStatus := mergeSnapshot st.nodeStatus snap,
                  executionLogs := (st.executionLogs ++ nodeErrorLogs snap)
                    ++ ["Execution completed with errors"],
                  isRunning := false, pollingActive := false } := by
    unfold pollStep
    rw [hp]
    simp [hall, herr']
  rw [hstep]
  refine ⟨rfl, rfl, by simp, ?_⟩
  intro p hpmem
  exact lookup_mergeSnapshot_mem snap hnd p hpmem st.nodeStatus

theorem errored_run_completes_witness :
    (pollStep startedSim [("a", ⟨NodeSt.finished, some 10, none⟩), ("b", ⟨NodeSt.error, some 3, some "write failed"⟩)]).isRunning = false ∧
    (pollStep startedSim [("a", ⟨NodeSt.finished, some 10, none⟩), ("b", ⟨NodeSt.error, some 3, some "write failed"⟩)]).pollingActive = false ∧
    (pollStep startedSim [("a", ⟨NodeSt.finished, some 10, none⟩), ("b", ⟨NodeSt.error, some 3, some "write failed"⟩)]).executionLogs
      = startedSim.executionLogs
          ++ nodeErrorLogs [("a", ⟨NodeSt.finished, some 10, none⟩), ("b", ⟨NodeSt.error, some 3, some "write failed"⟩)]
          ++ ["Execution completed with errors"] ∧
    ∀ p ∈ [("a", (⟨NodeSt.finished, some 10, none⟩ : NodeEntry)), ("b", ⟨NodeSt.error, some 3, some "write failed"⟩)],
      lookup (pollStep startedSim [("a", ⟨NodeSt.finished, some 10, none⟩), ("b", ⟨NodeSt.error, some 3, some "write failed"⟩)]).nodeStatus p.1 = some p.2 :=
  errored_run_completes startedSim
    [("a", ⟨NodeSt.finished, some 10, none⟩), ("b", ⟨NodeSt.error, some 3, some "write failed"⟩)]
    rfl (by decide) (by decide) (by decide) ⟨("b", ⟨NodeSt.error, some 3, some "write failed"⟩), by decide, rfl⟩

lemma runRamp_finished (cfg : RampCfg) (t : ℚ) :
    ∀ dts : List ℚ, runRamp cfg ⟨t, true⟩ dts = ([], ⟨t, true⟩) := by
  intro dts
  induction dts with
  | nil => rfl
  | cons dt rest ih => simp [runRamp, rampTick, ih]

lemma runRamp_spec (cfg : RampCfg) (hdur : 0 < cfg.durationSeconds) :
    ∀ dts : List ℚ, (∀ dt ∈ dts, 0 < dt) →
      ∀ t0 : ℚ, 0 ≤ t0 → t0 < cfg.durationSeconds →
      (∀ w ∈ (runRamp cfg ⟨t0, false⟩ dts).1, w.2 = rampValue cfg w.1) ∧
      ((runRamp cfg ⟨t0, false⟩ dts).1.filter
          (fun w => decide (cfg.durationSeconds ≤ w.1))).length
        = (if cfg.durationSeconds ≤ t0 + dts.sum then 1 else 0) ∧
      ((runRamp cfg ⟨t0, false⟩ dts).2.finished = true
        ↔ cfg.durationSeconds ≤ t0 + dts.sum) := by
  intro dts
  induction dts with
  | nil =>
    intro _ t0 h0 hlt
    refine ⟨by simp [runRamp], ?_, ?_⟩
    · simp [runRamp, not_le.mpr hlt]
    · simp [runRamp, not_le.mpr hlt]
  | cons dt rest ih =>
    intro hpos t0 h0 hlt
    have hdt : 0 < dt := hpos dt (by simp)
    have hrest : ∀ x ∈ rest, 0 < x := fun x hx => hpos x (by simp [hx])
    by_cases hcross : cfg.durationSeconds ≤ t0 + dt
    · have hrun : runRamp cfg ⟨t0, false⟩ (dt :: rest)
          = ([(t0 + dt, cfg.endValue)], ⟨t0 + dt, true⟩) := by
        simp [runRamp, rampTick, hcross, runRamp_finished]
      have hsum : 0 ≤ rest.sum :=
        List.sum_nonneg fun x hx => le_of_lt (hrest x hx)
      have hcross' : cfg.durationSeconds ≤ t0 + (dt + rest.sum) := by linarith
      rw [hrun]
      refine ⟨?_, ?_, ?_⟩
      · intro w hw
        have hweq : w = (t0 + dt, cfg.endValue) := by simpa using hw
        subst hweq
        have h1 : 1 ≤ (t0 + dt) / cfg.durationSeconds :=
          (one_le_div hdur).mpr hcross
        rw [rampValue, min_eq_left h1]
        ring
      · simp [hcross, hcross']
      · simp [hcross']
    · push_neg at hcross
      have h0' : 0 ≤ t0 + dt := by linarith
      have ihh := ih hrest (t0 + dt) h0' hcross
      have hrun : runRamp cfg ⟨t0, false⟩ (dt :: rest)
          = ((t0 + dt, rampValue cfg (t0 + dt))
                :: (runRamp cfg ⟨t0 + dt, false⟩ rest).1,
             (runRamp cfg ⟨t0 + dt, false⟩ rest).2) := by
        simp [runRamp, rampTick, not_le.mpr hcross]
      have hassoc : t0 + (dt :: rest).sum = (t0 + dt) + rest.sum := by
        rw [List.sum_cons]; ring
      rw [hrun]
      refine ⟨?_, ?_, ?_⟩
      · intro w hw
        rcases List.mem_cons.mp hw with rfl | hw'
        · rfl
        · exact ihh.1 w hw'
      · rw [List.filter_cons, if_neg (by simpa using not_le.mpr hcross), hassoc]
        exact ihh.2.1
      · rw [hassoc]
        exact ihh.2.2

/-- C1: for a numeric SetValue ramp with positive duration, run over any
positive tick intervals: `value(0) = startValue`; every dispatched write
carries exactly `startValue + (endValue - startValue) * min(1, t /
durationSeconds)` at its elapsed time `t`; every write at `t >=
durationSeconds` is exactly `endValue`; exactly one such terminal write
is issued when the accumulated time reaches the duration (none before);
and the step has transitioned to Finished exactly then. -/
theorem setvalue_ramp (cfg : RampCfg) (hdur : 0 < cfg.durationSeconds)
    (dts : List ℚ) (hdts : ∀ dt ∈ dts, 0 < dt) :
    rampValue cfg 0 = cfg.startValue ∧
    (∀ w ∈ (runRamp cfg ⟨0, false⟩ dts).1,
      w.2 = cfg.startValue + (cfg.endValue - cfg.startValue)
        * min 1 (w.1 / cfg.durationSeconds)) ∧
    (∀ w ∈ (runRamp cfg ⟨0, false⟩ dts).1,
      cfg.durationSeconds ≤ w.1 → w.2 = cfg.endValue) ∧
    ((runRamp cfg ⟨0, false⟩ dts).1.filter
        (fun w => decide (cfg.durationSeconds ≤ w.1))).length
      = (if cfg.durationSeconds ≤ dts.sum then 1 else 0) ∧
    ((runRamp cfg ⟨0, false⟩ dts).2.finished = true
      ↔ cfg.durationSeconds ≤ dts.sum) := by
  have h := runRamp_spec cfg hdur dts hdts 0 le_rfl hdur
  simp only [zero_add] at h
  refine ⟨?_, fun w hw => h.1 w hw, ?_, h.2.1, h.2.2⟩
  · rw [rampValue, zero_div, min_eq_right (by norm_num : (0:ℚ) ≤ 1)]
    ring
  · intro w hw hcr
    rw [h.1 w hw]
    have h1 : 1 ≤ w.1 / cfg.durationSeconds := (one_le_div hdur).mpr hcr
    rw [rampValue, min_eq_left h1]
    ring

theorem setvalue_ramp_witness :
    rampValue ⟨0, 100, 10⟩ 0 = (0 : ℚ) ∧
    ((runRamp ⟨0, 100, 10⟩ ⟨0, false⟩ [5, 5, 2]).1.filter
        (fun w => decide ((⟨0, 100, 10⟩ : RampCfg).durationSeconds ≤ w.1))).length
      = 1 ∧
    (runRamp ⟨0, 100, 10⟩ ⟨0, false⟩ [5, 5, 2]).2.finished = true := by
  have hdts : ∀ dt ∈ ([5, 5, 2] : List ℚ), 0 < dt := by
    intro dt hdt
    fin_cases hdt <;> norm_num
  have h := setvalue_ramp ⟨0, 100, 10⟩ (by norm_num) [5, 5, 2] hdts
  have hle : (⟨0, 100, 10⟩ : RampCfg).durationSeconds ≤ ([5, 5, 2] : List ℚ).sum := by
    show (10 : ℚ) ≤ [5, 5, 2].sum
    norm_num [List.sum_cons, List.sum_nil]
  refine ⟨h.1, ?_, h.2.2.2.2.mpr hle⟩
  rw [h.2.2.2.1, if_pos hle]

lemma foldl_extends_head {α : Type} (f : List α → ℕ → List α)
    (hf : ∀ ds i, f ds i = ds ∨ ∃ x, f ds i = ds ++ [x]) :
    ∀ (idx : List ℕ) (l : List α), l ≠ [] →
      idx.foldl f l ≠ [] ∧ (idx.foldl f l).head? = l.head? := by
  intro idx
  induction idx with
  | nil => intro l hl; exact ⟨hl, rfl⟩
  | cons i rest ih =>
    intro l hl
    rcases hf l i with h | ⟨x, h⟩
    · rw [List.foldl_cons, h]
      exact ih l hl
    · rw [List.foldl_cons, h]
      have hne : l ++ [x] ≠ [] := by simp
      obtain ⟨h1, h2⟩ := ih (l ++ [x]) hne
      refine ⟨h1, ?_⟩
      rw [h2, List.head?_append]
      obtain ⟨a, t, rfl⟩ := List.exists_cons_of_ne_nil hl
      rfl

lemma foldl_extends_length {α : Type} (f : List α → ℕ → List α)
    (hf : ∀ ds i, f ds i = ds ∨ ∃ x, f ds i = ds ++ [x]) :
    ∀ (idx : List ℕ) (l : List α),
      (idx.foldl f l).length ≤ l.length + idx.length := by
  intro idx
  induction idx with
  | nil => intro l; simp
  | cons i rest ih =>
    intro l
    rcases hf l i with h | ⟨x, h⟩
    · rw [List.foldl_cons, h]
      have := ih l
      simp only [List.length_cons]
      omega
    · rw [List.foldl_cons, h]
      have := ih (l ++ [x])
      simp only [List.length_append, List.length_cons, List.length_nil] at this ⊢
      omega

lemma lttbPick_extends (data : List Point) (bs : ℚ) :
    ∀ ds i, lttbPick data bs ds i = ds ∨ ∃ x, lttbPick data bs ds i = ds ++ [x] := by
  intro ds i
  unfold lttbPick
  cases lttbBest data bs ds i with
  | some j => exact Or.inr ⟨_, rfl⟩
  | none => exact Or.inl rfl

/-- C8 amended: `downsampleLTTB` returns `data` itself whenever
`data.length <= threshold`; otherwise the result starts with `data[0]`,
ends with `data[data.length - 1]`, and has length at most
`max threshold 2` (the first and last points are always kept, so for
`threshold < 2` the result still has two points). -/
theorem downsample_bounds (data : List Point) (threshold : ℕ) :
    (data.length ≤ threshold → downsampleLTTB data threshold = data) ∧
    (threshold < data.length →
      (downsampleLTTB data threshold).head? = data.head? ∧
      (downsampleLTTB data threshold).getLast? = data.getLast? ∧
      (downsampleLTTB data threshold).length ≤ max threshold 2) := by
  constructor
  · intro h
    simp [downsampleLTTB, h]
  · intro h
    have hne : data ≠ [] := by
      intro heq
      rw [heq] at h
      simp at h
    have hnle : ¬ data.length ≤ threshold := not_le.mpr h
    have hres : downsampleLTTB data threshold
        = ((List.range (threshold - 2)).foldl
            (lttbPick data (((data.length : ℚ) - 2) / ((threshold : ℚ) - 2)))
            [data.headD ⟨0, 0⟩]) ++ [data.getLastD ⟨0, 0⟩] := by
      simp only [downsampleLTTB]
      rw [if_neg hnle]
    obtain ⟨hFne, hFhead⟩ := foldl_extends_head _
      (lttbPick_extends data (((data.length : ℚ) - 2) / ((threshold : ℚ) - 2)))
      (List.range (threshold - 2)) [data.headD ⟨0, 0⟩] (by simp)
    have hFlen := foldl_extends_length _
      (lttbPick_extends data (((data.length : ℚ) - 2) / ((threshold : ℚ) - 2)))
      (List.range (threshold - 2)) [data.headD ⟨0, 0⟩]
    refine ⟨?_, ?_, ?_⟩
    · rw [hres, List.head?_append, hFhead]
      obtain ⟨a, t, rfl⟩ := List.exists_cons_of_ne_nil hne
      rfl
    · rw [hres, List.getLast?_concat, List.getLastD_eq_getLast?,
        List.getLast?_eq_getLast data hne]
      rfl
    · rw [hres, List.length_append]
      simp only [List.length_range, List.length_singleton,
        List.length_cons, List.length_nil] at hFlen ⊢
      rcases Nat.le_total 2 threshold with h2 | h2
      · rw [Nat.max_eq_left h2]
        omega
      · rw [Nat.max_eq_right h2]
        omega

/-- C8 counterexample: for `threshold = 1` and a two-point list the
precondition `data.length > threshold` holds, yet the result keeps both
the first and the last point, so its length 2 exceeds the threshold. -/
theorem downsample_counterexample :
    1 < ([⟨0, 0⟩, ⟨1, 1⟩] : List Point).length ∧
    ¬ (downsampleLTTB [⟨0, 0⟩, ⟨1, 1⟩] 1).length ≤ 1 := by
  have hval : downsampleLTTB [⟨0, 0⟩, ⟨1, 1⟩] 1 = [⟨0, 0⟩, ⟨1, 1⟩] := rfl
  refine ⟨by decide, ?_⟩
  rw [hval]
  decide

theorem downsample_bounds_witness :
    downsampleLTTB [⟨0, 0⟩] 3 = [⟨0, 0⟩] ∧
    (downsampleLTTB [⟨0, 0⟩, ⟨1, 1⟩, ⟨2, 0⟩] 2).head?
        = ([⟨0, 0⟩, ⟨1, 1⟩, ⟨2, 0⟩] : List Point).head? ∧
    (downsampleLTTB [⟨0, 0⟩, ⟨1, 1⟩, ⟨2, 0⟩] 2).getLast?
        = ([⟨0, 0⟩, ⟨1, 1⟩, ⟨2, 0⟩] : List Point).getLast? ∧
    (downsampleLTTB [⟨0, 0⟩, ⟨1, 1⟩, ⟨2, 0⟩] 2).length ≤ max 2 2 := by
  have h1 := (downsample_bounds [⟨0, 0⟩] 3).1 (by decide)
  have h2 := (downsample_bounds [⟨0, 0⟩, ⟨1, 1⟩, ⟨2, 0⟩] 2).2 (by decide)
  exact ⟨h1, h2.1, h2.2.1, h2.2.2⟩

lemma localeCompare_nonpos {a b : String} : localeCompare a b ≤ 0 ↔ a ≤ b := by
  unfold localeCompare
  split_ifs with h1 h2
  · norm_num [le_of_lt h1]
  · norm_num [not_le.mpr h2]
  · simp [not_lt.mp h2]

lemma strCompare_nonpos_trans (d : SortDir) (a b c : String)
    (h1 : strCompare d a b ≤ 0) (h2 : strCompare d b c ≤ 0) :
    strCompare d a c ≤ 0 := by
  cases d <;> simp only [strCompare, localeCompare_nonpos] at h1 h2 ⊢
  · exact le_trans h1 h2
  · exact le_trans h2 h1

lemma strCompare_nonpos_total (d : SortDir) (a b : String) :
    strCompare d a b ≤ 0 ∨ strCompare d b a ≤ 0 := by
  cases d <;> simp only [strCompare, localeCompare_nonpos]
  · exact le_total a b
  · exact le_total b a

lemma numCompare_nonpos_trans (d : SortDir) (a b c : ℚ)
    (h1 : numCompare d a b ≤ 0) (h2 : numCompare d b c ≤ 0) :
    numCompare d a c ≤ 0 := by
  cases d <;> simp only [numCompare, sub_nonpos] at h1 h2 ⊢
  · exact le_trans h1 h2
  · exact le_trans h2 h1

lemma numCompare_nonpos_total (d : SortDir) (a b : ℚ) :
    numCompare d a b ≤ 0 ∨ numCompare d b a ≤ 0 := by
  cases d <;> simp only [numCompare, sub_nonpos]
  · exact le_total a b
  · exact le_total b a

lemma optCompare_le_trans {V : Type} {cmp : V → V → ℚ}
    (hc : ∀ x y z, cmp x y ≤ 0 → cmp y z ≤ 0 → cmp x z ≤ 0) :
    ∀ a b c : Option V,
      optCompare cmp a b ≤ 0 → optCompare cmp b c ≤ 0 →
      optCompare cmp a c ≤ 0 := by
  intro a b c h1 h2
  cases a with
  | none =>
    cases b with
    | none =>
      cases c with
      | none => exact h1
      | some vc => exact absurd h2 (by norm_num [optCompare])
    | some vb => exact absurd h1 (by norm_num [optCompare])
  | some va =>
    cases c with
    | none => norm_num [optCompare]
    | some vc =>
      cases b with
      | none => exact absurd h2 (by norm_num [optCompare])
      | some vb => exact hc va vb vc h1 h2

lemma optCompare_le_total {V : Type} {cmp : V → V → ℚ}
    (hc : ∀ x y, cmp x y ≤ 0 ∨ cmp y x ≤ 0) :
    ∀ a b : Option V, optCompare cmp a b ≤ 0 ∨ optCompare cmp b a ≤ 0 := by
  intro a b
  cases a with
  | none =>
    cases b with
    | none => exact Or.inl le_rfl
    | some vb => exact Or.inr (by norm_num [optCompare])
  | some va =>
    cases b with
    | none => exact Or.inl (by norm_num [optCompare])
    | some vb => exact hc va vb

lemma optCompare_map_inl (d : SortDir) (o1 o2 : Option String) :
    optCompare (svalCompare d) (o1.map Sum.inl) (o2.map Sum.inl)
      = optCompare (strCompare d) o1 o2 := by
  cases o1 <;> cases o2 <;> rfl

lemma optCompare_map_inr (d : SortDir) (o1 o2 : Option ℚ) :
    optCompare (svalCompare d) (o1.map Sum.inr) (o2.map Sum.inr)
      = optCompare (numCompare d) o1 o2 := by
  cases o1 <;> cases o2 <;> rfl

lemma mergeSort_nullsLast {α V : Type} (key : α → Option V) (le : α → α → Bool)
    (htrans : ∀ a b c, le a b = true → le b c = true → le a c = true)
    (htotal : ∀ a b, (le a b || le b a) = true)
    (hnull : ∀ a b, key a = none → key b ≠ none → le a b = false)
    (l : List α) :
    (l.mergeSort le).Pairwise (fun a b => key a = none → key b = none) := by
  refine (List.sorted_mergeSort htrans htotal l).imp ?_
  intro a b hab hna
  by_contra hnb
  rw [hnull a b hna hnb] at hab
  exact Bool.false_ne_true hab

lemma configLe_trans (k : ConfigSortKey) (d : SortDir) :
    ∀ a b c : ConfigNode,
      decide (configCompare k d a b ≤ 0) = true →
      decide (configCompare k d b c ≤ 0) = true →
      decide (configCompare k d a c ≤ 0) = true := by
  intro a b c h1 h2
  rw [decide_eq_true_eq] at h1 h2 ⊢
  exact optCompare_le_trans (strCompare_nonpos_trans d) _ _ _ h1 h2

lemma configLe_total (k : ConfigSortKey) (d : SortDir) :
    ∀ a b : ConfigNode,
      (decide (configCompare k d a b ≤ 0) || decide (configCompare k d b a ≤ 0))
        = true := by
  intro a b
  rcases optCompare_le_total (strCompare_nonpos_total d)
      (configKey k a) (configKey k b) with h | h <;> simp [configCompare, h]

lemma configLe_null (k : ConfigSortKey) (d : SortDir) :
    ∀ a b : ConfigNode, configKey k a = none → configKey k b ≠ none →
      decide (configCompare k d a b ≤ 0) = false := by
  intro a b hna hnb
  rw [decide_eq_false_iff_not]
  unfold configCompare
  rw [hna]
  cases hkb : configKey k b with
  | none => exact absurd hkb hnb
  | some vb => norm_num [optCompare]

lemma discoveredLe_trans (k : DiscoveredSortKey) (d : SortDir) :
    ∀ a b c : DiscoveredNode,
      decide (discoveredCompare k d a b ≤ 0) = true →
      decide (discoveredCompare k d b c ≤ 0) = true →
      decide (discoveredCompare k d a c ≤ 0) = true := by
  intro a b c h1 h2
  rw [decide_eq_true_eq] at h1 h2 ⊢
  cases k
  case node_id =>
    exact optCompare_le_trans (strCompare_nonpos_trans d)
      (some a.node_id) (some b.node_id) (some c.node_id) h1 h2
  case browse_name =>
    exact optCompare_le_trans (strCompare_nonpos_trans d)
      (some a.browse_name) (some b.browse_name) (some c.browse_name) h1 h2
  case discovered_at =>
    exact optCompare_le_trans (strCompare_nonpos_trans d)
      (some a.discovered_at) (some b.discovered_at) (some c.discovered_at) h1 h2
  case parent_id =>
    unfold discoveredCompare discoveredKey at h1 h2 ⊢
    rw [optCompare_map_inl] at h1 h2 ⊢
    exact optCompare_le_trans (strCompare_nonpos_trans d) _ _ _ h1 h2
  case data_type =>
    unfold discoveredCompare discoveredKey at h1 h2 ⊢
    rw [optCompare_map_inl] at h1 h2 ⊢
    exact optCompare_le_trans (strCompare_nonpos_trans d) _ _ _ h1 h2
  case value_rank =>
    unfold discoveredCompare discoveredKey at h1 h2 ⊢
    rw [optCompare_map_inr] at h1 h2 ⊢
    exact optCompare_le_trans (numCompare_nonpos_trans d) _ _ _ h1 h2

lemma discoveredLe_total (k : DiscoveredSortKey) (d : SortDir) :
    ∀ a b : DiscoveredNode,
      (decide (discoveredCompare k d a b ≤ 0)
        || decide (discoveredCompare k d b a ≤ 0)) = true := by
  intro a b
  cases k
  case node_id =>
    rcases optCompare_le_total (strCompare_nonpos_total d)
        (some a.node_id) (some b.node_id) with h | h
    · have h' : discoveredCompare DiscoveredSortKey.node_id d a b ≤ 0 := h
      simp [h']
    · have h' : discoveredCompare DiscoveredSortKey.node_id d b a ≤ 0 := h
      simp [h']
  case browse_name =>
    rcases optCompare_le_total (strCompare_nonpos_total d)
        (some a.browse_name) (some b.browse_name) with h | h
    · have h' : discoveredCompare DiscoveredSortKey.browse_name d a b ≤ 0 := h
      simp [h']
    · have h' : discoveredCompare DiscoveredSortKey.browse_name d b a ≤ 0 := h
      simp [h']
  case discovered_at =>
    rcases optCompare_le_total (strCompare_nonpos_total d)
        (some a.discovered_at) (some b.discovered_at) with h | h
    · have h' : discoveredCompare DiscoveredSortKey.discovered_at d a b ≤ 0 := h
      simp [h']
    · have h' : discoveredCompare DiscoveredSortKey.discovered_at d b a ≤ 0 := h
      simp [h']
  case parent_id =>
    rcases optCompare_le_total (strCompare_nonpos_total d)
        a.parent_id b.parent_id with h | h <;>
      simp [discoveredCompare, discoveredKey, optCompare_map_inl, h]
  case data_type =>
    rcases optCompare_le_total (strCompare_nonpos_total d)
        a.data_type b.data_type with h | h <;>
      simp [discoveredCompare, discoveredKey, optCompare_map_inl, h]
  case value_rank =>
    rcases optCompare_le_total (numCompare_nonpos_total d)
        a.value_rank b.value_rank with h | h <;>
      simp [discoveredCompare, discoveredKey, optCompare_map_inr, h]

lemma discoveredLe_null (k : DiscoveredSortKey) (d : SortDir) :
    ∀ a b : DiscoveredNode, discoveredKey k a = none → discoveredKey k b ≠ none →
      decide (discoveredCompare k d a b ≤ 0) = false := by
  intro a b hna hnb
  rw [decide_eq_false_iff_not]
  unfold discoveredCompare
  rw [hna]
  cases hkb : discoveredKey k b with
  | none => exact absurd hkb hnb
  | some vb => norm_num [optCompare]

/-- C10: in both sorted node tables, every row whose active sort key is
null is ordered after every row whose sort key is present, for both
ascending and descending sort directions (the null checks in the
comparators run before the direction-sensitive comparison). -/
theorem nulls_sorted_last :
    (∀ (k : ConfigSortKey) (d : SortDir) (nodes : List ConfigNode),
      (sortedNodes k d nodes).Pairwise
        (fun a b => configKey k a = none → configKey k b = none)) ∧
    (∀ (k : DiscoveredSortKey) (d : SortDir) (nodes : List DiscoveredNode),
      (sortedDiscovered k d nodes).Pairwise
        (fun a b => discoveredKey k a = none → discoveredKey k b = none)) := by
  constructor
  · intro k d nodes
    exact mergeSort_nullsLast (configKey k) _
      (configLe_trans k d) (configLe_total k d) (configLe_null k d) nodes
  · intro k d nodes
    exact mergeSort_nullsLast (discoveredKey k) _
      (discoveredLe_trans k d) (discoveredLe_total k d) (discoveredLe_null k d) nodes
